import Mathlib

/-!
Verification of the ddb-repository query-expression compiler and
result-assembly engine (src/src/DynamoDbRepository.ts).

The data model and operations below are shallow embeddings of the
TypeScript source: attribute values become a tagged union, attribute
maps become association lists in insertion order (mirroring JS object
property order), and the DynamoDB store collaborator becomes a function
from marshalled key to optional item, following the contract in the
design document (getRecord, putRecord, batchGetRecords with missing
keys simply absent).
-/

/-- A DynamoDB scalar attribute value: string, number or boolean. -/
inductive DVal where
  | s (v : String)
  | n (v : Int)
  | b (v : Bool)
deriving DecidableEq

/-- The value of a filter predicate: a scalar, or a list of scalars
(used by the IN and BETWEEN operators).  Mirrors the union type of
FilterExpression.value; Array.isArray distinguishes the two arms. -/
inductive FilterValue where
  | scalar (v : DVal)
  | list (vs : List DVal)
deriving DecidableEq

/-- The FilterOperator enum of the source. -/
inductive FilterOperator where
  | EQUALS
  | NOT_EQUALS
  | GREATER_THAN_OR_EQUALS
  | GREATER_THAN
  | LESS_THAN
  | LESS_THAN_OR_EQUALS
  | IN
  | BETWEEN
deriving DecidableEq

/-- The string value carried by each FilterOperator enum member, as
interpolated into clause templates by the source. -/
def FilterOperator.toStr : FilterOperator → String
  | .EQUALS => "="
  | .NOT_EQUALS => "<>"
  | .GREATER_THAN_OR_EQUALS => ">="
  | .GREATER_THAN => ">"
  | .LESS_THAN => "<"
  | .LESS_THAN_OR_EQUALS => "<="
  | .IN => "IN"
  | .BETWEEN => "BETWEEN"

/-- One typed filter predicate (interface FilterExpression of the
source; the attribute field is spelled attr because attribute is a
Lean keyword).  negate defaults to false as in the source. -/
structure FilterExpression where
  attr : String
  value : FilterValue
  operator : FilterOperator
  negate : Bool := false
deriving DecidableEq

/-- The attribute name sanitizer (line 45):
replace(key, regex dash global, underscore), i.e. every dash character
of the raw name becomes an underscore. -/
def expressionAttributeKey (key : String) : String :=
  ⟨key.data.map (fun c => if c = '-' then '_' else c)⟩

/-- JS Array.prototype.join with a separator: empty string on the
empty array, elements interleaved with the separator otherwise. -/
def joinSep (sep : String) : List String → String
  | [] => ""
  | [x] => x
  | x :: y :: xs => x ++ sep ++ joinSep sep (y :: xs)

/-- mapInKeys (lines 47-52): for an array value, one value placeholder
per element built from the RAW attribute name followed by the index;
for a scalar value, the single raw-name placeholder.  (The scalar arm
of the source returns a bare string; interpolating it equals the join
of the one-element list used here.) -/
def mapInKeys (fe : FilterExpression) : List String :=
  match fe.value with
  | .list vs => vs.enum.map (fun p => ":" ++ fe.attr ++ toString p.1)
  | .scalar _ => [":" ++ fe.attr]

/-- mapFilterExpression (lines 54-72): the per-operator clause shape.
IN interpolates the mapInKeys array into parentheses (JS array to
string conversion joins with a comma); BETWEEN emits the fixed
two-placeholder template; every other operator emits the single
sanitized placeholder template.  No branch validates the value shape
and no branch can fail. -/
def mapFilterExpression (fe : FilterExpression) : String :=
  match fe.operator with
  | .IN =>
      "#" ++ expressionAttributeKey fe.attr ++ " " ++ fe.operator.toStr ++ " " ++
        "(" ++ joinSep "," (mapInKeys fe) ++ ")"
  | .BETWEEN =>
      "#" ++ expressionAttributeKey fe.attr ++ " " ++ fe.operator.toStr ++ " " ++
        ":" ++ expressionAttributeKey fe.attr ++ "0 AND :" ++ expressionAttributeKey fe.attr ++ "1"
  | _ =>
      "#" ++ expressionAttributeKey fe.attr ++ " " ++ fe.operator.toStr ++ " " ++
        ":" ++ expressionAttributeKey fe.attr

/-- The per-predicate fragment inlined in mapFilterExpressions
(lines 78-82): a fragment is prefixed with NOT and a space when negate
is set; no parentheses are added. -/
def filterExpressionFragment (fe : FilterExpression) : String :=
  if fe.negate then "NOT " ++ mapFilterExpression fe else mapFilterExpression fe

/-- mapFilterExpressions (lines 74-83): fragments of every predicate,
in the order supplied, joined with AND. -/
def mapFilterExpressions (fes : List FilterExpression) : String :=
  joinSep " AND " (fes.map filterExpressionFragment)

/-- The FilterExpression parameter of the assembled query command
(lines 279-281): undefined when no predicate list was supplied on the
query, and the compiled conjunction otherwise.  An empty list is
truthy in JS, so it takes the second branch. -/
def filterExpressionParam : Option (List FilterExpression) → Option String
  | none => none
  | some fes => some (mapFilterExpressions fes)

/-- mapFilterExpressionValues (lines 85-99): the named value
placeholders of one predicate, as (placeholder, value) pairs in
insertion order.  For an array value, one pair per element indexed in
list order, the placeholder built from the SANITIZED attribute name;
for a scalar, the single sanitized-name pair. -/
def mapFilterExpressionValues (fe : FilterExpression) : List (String × DVal) :=
  match fe.value with
  | .list vs =>
      vs.enum.map (fun p => (":" ++ expressionAttributeKey fe.attr ++ toString p.1, p.2))
  | .scalar v => [(":" ++ expressionAttributeKey fe.attr, v)]

/-- A marshalled attribute map (item or key) as stored: association
list in insertion order, defined values only. -/
abbrev AttrMap := List (String × DVal)

/-- A raw JS object before marshalling: a value of none models a
property that is present with value undefined. -/
abbrev KeyRaw := List (String × Option DVal)

/-- The store collaborator: a table mapping a marshalled key to the
item stored under it, or none when absent. -/
abbrev Store := AttrMap → Option AttrMap

/-- Property lookup on an association list: the value of the first
pair carrying the name, as in a JS object. -/
def getAttr {α : Type} : List (String × α) → String → Option α
  | [], _ => none
  | p :: m, a => if p.1 = a then some p.2 else getAttr m a

/-- marshall with removeUndefinedValues true: properties whose value
is undefined are dropped; defined values are kept in order. -/
def marshallRU (m : KeyRaw) : AttrMap :=
  m.filterMap (fun p => p.2.map (fun v => (p.1, v)))

/-- The JS object spread of record then key, as in the putItem source
line 132: properties of the record in their order, a same-named key
property overriding the value in place, and the remaining key
properties appended in key order. -/
def spreadMerge (r k : KeyRaw) : KeyRaw :=
  r.map (fun p => (p.1, (getAttr k p.1).getD p.2)) ++
    k.filter (fun p => (getAttr r p.1).isNone)

/-- getItem (lines 118-129): look the marshalled key up in the store;
a missing item resolves to undefined (none), never an exception. -/
def getItem (store : Store) (key : KeyRaw) : Option AttrMap :=
  store (marshallRU key)

/-- putItem (lines 131-141): marshall the spread of record then key
with undefined values removed, write it to the store under the key
(the table stores an item under its key-schema attributes, which for a
key matching the schema are exactly the marshalled key), then resolve
with a getItem re-read of the same key from the written store. -/
def putItem (store : Store) (key record : KeyRaw) : Store × Option AttrMap :=
  let item := marshallRU (spreadMerge record key)
  let written : Store := fun q => if q = marshallRU key then some item else store q
  (written, getItem written key)

/-- paginate (lines 101-108): the reduce of the source sends element i
of the input to page i / pageSize, so page i holds the pageSize
consecutive elements starting at i * pageSize and the number of pages
is the ceiling of length / pageSize.  A page size of 0 is degenerate
and never used; the source always passes 100. -/
def paginate {α : Type} (l : List α) (pageSize : Nat) : List (List α) :=
  (List.range ((l.length + pageSize - 1) / pageSize)).map
    (fun i => (l.drop (i * pageSize)).take pageSize)

/-- One batch-get call on a page of keys, per the collaborator
contract of the design document: the items found for the requested
keys, a missing key contributing no entry. -/
def fetchPage (store : Store) (page : List AttrMap) : List AttrMap :=
  page.filterMap store

/-- batchGetItems (lines 351-368): page the key list into chunks of
100, issue one batch-get call per chunk, and flatten the per-chunk
results.  No deduplication is performed on the key list. -/
def batchGetItems (store : Store) (keys : List AttrMap) : List AttrMap :=
  ((paginate keys 100).map (fetchPage store)).flatten

/-- Modelled from the spec: the single conceptual fetch over a whole
key list that the chunking property of the design document compares
against (one duplicate-free result set of the items found for the
keys). -/
def singleFetch (store : Store) (keys : List AttrMap) : List AttrMap :=
  (keys.filterMap store).dedup

/-- The index-page key extraction of getItems (lines 325-337): each
unmarshalled page item is reduced to a one-property object holding the
PK attribute name and the lodash get of that attribute on the item
(undefined, i.e. none, when the item lacks it).  Every item of every
page is mapped; none is filtered out, and no sort-key attribute is
ever extracted. -/
def extractIndexKeys (pkAttr : String) (items : List AttrMap) : List KeyRaw :=
  items.map (fun item => [(pkAttr, getAttr item pkAttr)])

/-! ### Helper lemmas -/

/-- A clause template groups as prefix, a literal middle built from a
space, the operator string, a space and a colon, then the sanitized
name again. -/
theorem clause_merge (A op S : String) :
    A ++ " " ++ op ++ " " ++ ":" ++ S = A ++ (" " ++ op ++ " " ++ ":") ++ S := by
  simp only [String.append_assoc]

/-- Grouping form of the IN clause template. -/
theorem in_merge (A op J : String) :
    A ++ " " ++ op ++ " " ++ "(" ++ J ++ ")" = A ++ (" " ++ op ++ " " ++ "(" ++ J ++ ")") := by
  simp only [String.append_assoc]

/-- mapFilterExpression never inspects the negate flag. -/
theorem mapFilterExpression_negate_irrel (attr : String) (v : FilterValue)
    (op : FilterOperator) (b1 b2 : Bool) :
    mapFilterExpression ⟨attr, v, op, b1⟩ = mapFilterExpression ⟨attr, v, op, b2⟩ := by
  cases op <;> rfl

/-- The page count of paginate is the ceiling of length over page
size (in its source form). -/
theorem paginate_length {α : Type} (l : List α) (n : Nat) :
    (paginate l n).length = (l.length + n - 1) / n := by
  simp [paginate]

/-- Every page produced by paginate holds at most pageSize elements. -/
theorem paginate_page_le {α : Type} (l : List α) (n : Nat) :
    ∀ page ∈ paginate l n, page.length ≤ n := by
  intro page hp
  simp only [paginate, List.mem_map, List.mem_range] at hp
  obtain ⟨i, _, rfl⟩ := hp
  simp [List.length_take]

/-- Concatenating the pages of paginate recovers the input list. -/
theorem paginate_flatten {α : Type} (n : Nat) (hn : 0 < n) :
    ∀ l : List α, (paginate l n).flatten = l := by
  have main : ∀ (N : Nat) (l : List α), l.length ≤ N → (paginate l n).flatten = l := by
    intro N
    induction N with
    | zero =>
      intro l hl
      have hnil : l = [] := List.length_eq_zero.mp (Nat.le_zero.mp hl)
      subst hnil
      simp [paginate]
    | succ N ih =>
      intro l hl
      cases l with
      | nil => simp [paginate]
      | cons x xs =>
        have hcount : ((x :: xs).length + n - 1) / n
            = (((x :: xs).drop n).length + n - 1) / n + 1 := by
          rw [List.length_drop]
          rcases Nat.le_total (x :: xs).length n with hle | hge
          · have h0 : (x :: xs).length - n = 0 := Nat.sub_eq_zero_of_le hle
            rw [h0]
            have hone : 0 < (x :: xs).length := by simp
            have h1 : (0 + n - 1) / n = 0 := Nat.div_eq_of_lt (by omega)
            have h2 : ((x :: xs).length + n - 1) / n = 1 :=
              Nat.div_eq_of_lt_le (by omega) (by omega)
            omega
          · have e1 : (x :: xs).length - n + n - 1 = (x :: xs).length - 1 := by omega
            have e2 : (x :: xs).length + n - 1 = ((x :: xs).length - 1) + n := by omega
            rw [e1, e2, Nat.add_div_right _ hn]
        have htail : (List.range ((((x :: xs).drop n).length + n - 1) / n)).map
            ((fun i => ((x :: xs).drop (i * n)).take n) ∘ Nat.succ)
            = paginate ((x :: xs).drop n) n := by
          rw [paginate]
          refine List.map_congr_left ?_
          intro i _
          simp only [Function.comp_apply]
          rw [List.drop_drop]
          have : n + i * n = Nat.succ i * n := by
            rw [Nat.succ_mul, Nat.add_comm]
          rw [this]
        have hdroplen : ((x :: xs).drop n).length ≤ N := by
          rw [List.length_drop]
          have : 0 < n := hn
          simp only [List.length_cons] at hl ⊢
          omega
        rw [paginate, hcount, List.range_succ_eq_map, List.map_cons, List.map_map, htail,
          List.flatten_cons, ih _ hdroplen]
        simp [List.take_append_drop]
  exact fun l => main l.length l (Nat.le_refl _)

/-- batchGetItems over any key list equals the items found for the
keys in order: paging at 100 and flattening is invisible. -/
theorem batchGetItems_eq_filterMap (store : Store) (keys : List AttrMap) :
    batchGetItems store keys = keys.filterMap store := by
  calc ((paginate keys 100).map (fetchPage store)).flatten
      = List.filterMap store (paginate keys 100).flatten :=
        (List.filterMap_flatten store (paginate keys 100)).symm
    _ = keys.filterMap store := by rw [paginate_flatten 100 (by norm_num)]

/-- Lookup distributes over append, preferring the left list. -/
theorem getAttr_append {α : Type} (m1 m2 : List (String × α)) (a : String) :
    getAttr (m1 ++ m2) a = (getAttr m1 a <|> getAttr m2 a) := by
  induction m1 with
  | nil => simp [getAttr]
  | cons p m ih =>
    by_cases h : p.1 = a <;> simp [getAttr, h, ih]

/-- Lookup after a value-only map rewrites the found value. -/
theorem getAttr_mapValue {α β : Type} (m : List (String × α)) (f : String → α → β) (a : String) :
    getAttr (m.map (fun p => (p.1, f p.1 p.2))) a = (getAttr m a).map (f a) := by
  induction m with
  | nil => simp [getAttr]
  | cons p m ih =>
    by_cases h : p.1 = a
    · subst h
      simp [getAttr, ih]
    · simp [getAttr, h, ih]

/-- Lookup after filtering on a key-only predicate. -/
theorem getAttr_filterKey {α : Type} (m : List (String × α)) (Q : String → Bool) (a : String) :
    getAttr (m.filter (fun p => Q p.1)) a = if Q a then getAttr m a else none := by
  induction m with
  | nil => simp [getAttr]
  | cons p m ih =>
    by_cases hq : Q p.1
    · by_cases h : p.1 = a
      · subst h
        simp [List.filter_cons, getAttr, hq, ih]
      · simp [List.filter_cons, getAttr, hq, h, ih]
    · by_cases h : p.1 = a
      · subst h
        simp [List.filter_cons, getAttr, hq, ih]
      · simp [List.filter_cons, getAttr, hq, h, ih]

/-- The spread of record then key resolves a property to the key value
when the key carries the property, and to the record value otherwise. -/
theorem getAttr_spreadMerge (r k : KeyRaw) (a : String) :
    getAttr (spreadMerge r k) a = (getAttr k a <|> getAttr r a) := by
  rw [spreadMerge, getAttr_append,
    getAttr_mapValue r (fun nm v => (getAttr k nm).getD v) a,
    getAttr_filterKey k (fun nm => (getAttr r nm).isNone) a]
  cases hr : getAttr r a <;> cases hk : getAttr k a <;> simp [hr, hk]

/-- Marshalling keeps exactly the pairs whose value is defined. -/
theorem mem_marshallRU (m : KeyRaw) (a : String) (v : DVal) :
    (a, v) ∈ marshallRU m ↔ (a, some v) ∈ m := by
  simp only [marshallRU, List.mem_filterMap, Option.map_eq_some']
  constructor
  · rintro ⟨⟨b, w⟩, hmem, x, hx, heq⟩
    cases heq
    subst hx
    exact hmem
  · intro hmem
    exact ⟨(a, some v), hmem, v, rfl, rfl⟩

/-! ### Claim theorems -/

/-- Claim C1 (evidence of the divergence): the index-page key
extraction of getItems reduces every page item to the single
PK-attribute property.  An item that lacks the hash-key attribute is
NOT dropped: it yields a key whose hash value is undefined (none); and
even for an item carrying both a hash and a sort attribute, only the
hash attribute is extracted, never the sort attribute. -/
theorem extractIndexKeys_keeps_missing_hash :
    extractIndexKeys "pk" [[("other", DVal.s "x")]] = [[("pk", (none : Option DVal))]] ∧
      extractIndexKeys "pk" [[("other", DVal.s "x")]] ≠ [] ∧
      extractIndexKeys "pk" [[("pk", DVal.s "h"), ("sk", DVal.s "r")]]
        = [[("pk", some (DVal.s "h"))]] :=
  ⟨rfl, by decide, rfl⟩

/-- Claim C2 (evidence of the divergence): for an IN predicate on the
attribute a-b with two values, the value placeholders produced carry
the sanitized prefix (:a_b0, :a_b1), but the compiled clause fragment
references raw-name placeholders (:a-b0, :a-b1), which are not among
the produced ones. -/
theorem inClause_placeholder_mismatch :
    mapFilterExpression ⟨"a-b", FilterValue.list [DVal.s "x", DVal.s "y"], FilterOperator.IN, false⟩
        = "#a_b IN (:a-b0,:a-b1)" ∧
      (mapFilterExpressionValues
          ⟨"a-b", FilterValue.list [DVal.s "x", DVal.s "y"], FilterOperator.IN, false⟩).map Prod.fst
        = [":a_b0", ":a_b1"] ∧
      ":a-b0" ∉ (mapFilterExpressionValues
          ⟨"a-b", FilterValue.list [DVal.s "x", DVal.s "y"], FilterOperator.IN, false⟩).map Prod.fst :=
  ⟨rfl, rfl, by decide⟩

/-- Claim C3 counterexample: compilation of a BETWEEN predicate whose
value is a one-element list, and of an IN predicate whose value list
is empty, both succeed and produce a clause string; no InvalidPredicate
error exists in the compiler, which is a total function. -/
theorem malformed_between_in_compile_succeeds :
    mapFilterExpression ⟨"a", FilterValue.list [DVal.s "x"], FilterOperator.BETWEEN, false⟩
        = "#a BETWEEN :a0 AND :a1" ∧
      mapFilterExpression ⟨"a", FilterValue.list [], FilterOperator.IN, false⟩ = "#a IN ()" :=
  ⟨rfl, rfl⟩

/-- Claim C3 as amended: the predicate compiler performs no shape
validation and cannot fail.  A BETWEEN predicate compiles to the fixed
two-placeholder clause whatever its value is, and an IN predicate with
an empty value list compiles to a clause with an empty placeholder
list. -/
theorem between_in_compile_unvalidated (attr : String) (v : FilterValue) (ng : Bool) :
    mapFilterExpression ⟨attr, v, FilterOperator.BETWEEN, ng⟩
        = "#" ++ expressionAttributeKey attr ++ " BETWEEN :" ++ expressionAttributeKey attr
            ++ "0 AND :" ++ expressionAttributeKey attr ++ "1" ∧
      mapFilterExpression ⟨attr, FilterValue.list [], FilterOperator.IN, ng⟩
        = "#" ++ expressionAttributeKey attr ++ " IN ()" := by
  constructor
  · simp only [mapFilterExpression, FilterOperator.toStr]
    rw [clause_merge ("#" ++ expressionAttributeKey attr) "BETWEEN" (expressionAttributeKey attr)]
    exact rfl
  · simp only [mapFilterExpression, FilterOperator.toStr, mapInKeys, joinSep]
    rw [in_merge ("#" ++ expressionAttributeKey attr) "IN" ""]
    exact rfl

/-- Claim C4 counterexample: with a one-key list whose key exists in
the store, fetching the list concatenated with itself returns twice as
many items as fetching the list, so the result sets are not of equal
size and no deduplication happens before the store calls. -/
theorem batchGetItems_dup_size_differs :
    (batchGetItems (fun k => some k) ([[("id", DVal.s "a")]] ++ [[("id", DVal.s "a")]])).length
        ≠ (batchGetItems (fun k => some k) [[("id", DVal.s "a")]]).length := by
  decide

/-- Claim C4 as amended: batchGetItems performs no deduplication of
its key list; fetching K concatenated with itself returns a result
with the same members as fetching K (equal content as sets), though
the sizes may differ because duplicate keys produce duplicate
results. -/
theorem batchGetItems_dup_set_equal (store : Store) (keys : List AttrMap) (x : AttrMap) :
    x ∈ batchGetItems store (keys ++ keys) ↔ x ∈ batchGetItems store keys := by
  rw [batchGetItems_eq_filterMap, batchGetItems_eq_filterMap, List.filterMap_append]
  simp [List.mem_append]

/-- Claim C5: for a key list of more than 100 keys, batchGetItems
pages the list into chunks of at most 100 keys, issues one batch call
per chunk with the number of chunks the ceiling of length over 100,
and the flattened concatenation of the per-chunk results with
duplicates removed equals the single conceptual fetch over the whole
list. -/
theorem batchGetItems_chunking (store : Store) (keys : List AttrMap)
    (h : 100 < keys.length) :
    (paginate keys 100).length = (keys.length + 99) / 100 ∧
      (∀ page ∈ paginate keys 100, page.length ≤ 100) ∧
      (batchGetItems store keys).dedup = singleFetch store keys := by
  refine ⟨?_, paginate_page_le keys 100, ?_⟩
  · rw [paginate_length]
    have e : keys.length + 100 - 1 = keys.length + 99 := by omega
    rw [e]
  · rw [batchGetItems_eq_filterMap, singleFetch]

/-- Witness for claim C5 at a concrete 101-key list and the empty
store. -/
theorem batchGetItems_chunking_witness :
    100 < (List.replicate 101 ([("id", DVal.b true)] : AttrMap)).length ∧
      ((paginate (List.replicate 101 ([("id", DVal.b true)] : AttrMap)) 100).length
          = ((List.replicate 101 ([("id", DVal.b true)] : AttrMap)).length + 99) / 100 ∧
        (∀ page ∈ paginate (List.replicate 101 ([("id", DVal.b true)] : AttrMap)) 100,
            page.length ≤ 100) ∧
        (batchGetItems (fun _ => none) (List.replicate 101 ([("id", DVal.b true)] : AttrMap))).dedup
          = singleFetch (fun _ => none) (List.replicate 101 ([("id", DVal.b true)] : AttrMap))) :=
  ⟨by decide, batchGetItems_chunking (fun _ => none) (List.replicate 101 [("id", DVal.b true)])
    (by decide)⟩

/-- Claim C6 counterexample: the compiled fragment of a negated EQUALS
predicate is NOT followed by the bare clause with no parentheses, so
it differs from the claimed form that wraps the clause in NOT and
parentheses. -/
theorem negate_clause_no_parens :
    mapFilterExpressions [⟨"a", FilterValue.scalar (DVal.s "v"), FilterOperator.EQUALS, true⟩]
        = "NOT #a = :a" ∧
      mapFilterExpressions [⟨"a", FilterValue.scalar (DVal.s "v"), FilterOperator.EQUALS, true⟩]
        ≠ "NOT (" ++
            mapFilterExpression ⟨"a", FilterValue.scalar (DVal.s "v"), FilterOperator.EQUALS, false⟩
            ++ ")" :=
  ⟨rfl, by decide⟩

/-- Claim C6 as amended: the compiled clause of a predicate with
negate true is the string NOT followed by a space and the clause of
the same predicate with negate false, with no parentheses added. -/
theorem negate_clause_shape (attr : String) (v : FilterValue) (op : FilterOperator) :
    mapFilterExpressions [⟨attr, v, op, true⟩]
        = "NOT " ++ mapFilterExpression ⟨attr, v, op, false⟩ :=
  congrArg (fun s => "NOT " ++ s) (mapFilterExpression_negate_irrel attr v op true false)

/-- Claim C7 counterexample: a query supplying an empty predicate list
still carries a filter clause in the store call parameters (the empty
string), because an empty array is truthy in JS; the clause is absent
only when the predicate list itself is absent. -/
theorem empty_filter_list_clause_present :
    filterExpressionParam (some []) = some "" ∧ filterExpressionParam (some []) ≠ none :=
  ⟨rfl, by decide⟩

/-- Claim C7 as amended: the assembled filter clause is the AND-join
of every compiled predicate fragment in the order supplied (the head
fragment comes first, joined to the compilation of the rest); it is
absent exactly when no predicate list is supplied, while a supplied
empty list yields a present, empty clause. -/
theorem filter_clause_and_join (fe : FilterExpression) (fes : List FilterExpression) :
    filterExpressionParam none = none ∧
      filterExpressionParam (some (fe :: fes))
        = some (filterExpressionFragment fe ++
            (if fes.isEmpty then "" else " AND " ++ mapFilterExpressions fes)) ∧
      filterExpressionParam (some []) = some "" := by
  refine ⟨rfl, ?_, rfl⟩
  cases fes with
  | nil => simp [filterExpressionParam, mapFilterExpressions, joinSep]
  | cons g gs =>
    simp [filterExpressionParam, mapFilterExpressions, joinSep, String.append_assoc]

/-- Claim C8: a key absent from the store makes the single-item get
resolve to the distinguished absent value (none, i.e. undefined) with
no exception possible, and contributes no entry at all to a batch get
that requests it. -/
theorem missing_key_absent (store : Store) (key : KeyRaw) (keys : List AttrMap)
    (h : store (marshallRU key) = none) :
    getItem store key = none ∧
      batchGetItems store (marshallRU key :: keys) = batchGetItems store keys := by
  refine ⟨h, ?_⟩
  rw [batchGetItems_eq_filterMap, batchGetItems_eq_filterMap, List.filterMap_cons, h]

/-- Witness for claim C8 at the empty store, a concrete key and a
concrete further key list. -/
theorem missing_key_absent_witness :
    ((fun _ => (none : Option AttrMap)) (marshallRU [("id", some (DVal.s "a"))]) = none) ∧
      (getItem (fun _ => none) [("id", some (DVal.s "a"))] = none ∧
        batchGetItems (fun _ => none)
            (marshallRU [("id", some (DVal.s "a"))] :: [[("x", DVal.b true)]])
          = batchGetItems (fun _ => none) [[("x", DVal.b true)]]) :=
  ⟨rfl, missing_key_absent (fun _ => none) [("id", some (DVal.s "a"))] [[("x", DVal.b true)]] rfl⟩

/-- Claim C9: for every single-valued comparison operator and a
predicate with negate false, the compiled clause is exactly the hash
placeholder, the operator and the colon placeholder of the sanitized
attribute name; and the sanitizer (a pure function) turns every dash
of the raw name into an underscore. -/
theorem comparison_clause_shape (attr : String) (v : FilterValue) :
    mapFilterExpressions [⟨attr, v, FilterOperator.EQUALS, false⟩]
        = "#" ++ expressionAttributeKey attr ++ " = :" ++ expressionAttributeKey attr
    ∧ mapFilterExpressions [⟨attr, v, FilterOperator.NOT_EQUALS, false⟩]
        = "#" ++ expressionAttributeKey attr ++ " <> :" ++ expressionAttributeKey attr
    ∧ mapFilterExpressions [⟨attr, v, FilterOperator.GREATER_THAN_OR_EQUALS, false⟩]
        = "#" ++ expressionAttributeKey attr ++ " >= :" ++ expressionAttributeKey attr
    ∧ mapFilterExpressions [⟨attr, v, FilterOperator.GREATER_THAN, false⟩]
        = "#" ++ expressionAttributeKey attr ++ " > :" ++ expressionAttributeKey attr
    ∧ mapFilterExpressions [⟨attr, v, FilterOperator.LESS_THAN, false⟩]
        = "#" ++ expressionAttributeKey attr ++ " < :" ++ expressionAttributeKey attr
    ∧ mapFilterExpressions [⟨attr, v, FilterOperator.LESS_THAN_OR_EQUALS, false⟩]
        = "#" ++ expressionAttributeKey attr ++ " <= :" ++ expressionAttributeKey attr
    ∧ expressionAttributeKey "a-b-c" = "a_b_c" :=
  ⟨clause_merge ("#" ++ expressionAttributeKey attr) "=" (expressionAttributeKey attr),
   clause_merge ("#" ++ expressionAttributeKey attr) "<>" (expressionAttributeKey attr),
   clause_merge ("#" ++ expressionAttributeKey attr) ">=" (expressionAttributeKey attr),
   clause_merge ("#" ++ expressionAttributeKey attr) ">" (expressionAttributeKey attr),
   clause_merge ("#" ++ expressionAttributeKey attr) "<" (expressionAttributeKey attr),
   clause_merge ("#" ++ expressionAttributeKey attr) "<=" (expressionAttributeKey attr),
   rfl⟩

/-- Claim C10: putItem writes the marshalled spread of the record and
the key, in which a key property overrides a same-named record
property and undefined-valued properties are removed; the written item
is stored under the key, its properties are exactly the defined pairs
of the spread, and the resolved value of putItem is the getItem
re-read of the key from the written store (hence the written item
itself when no concurrent writer intervenes). -/
theorem putItem_merge_write_readback (store : Store) (key record : KeyRaw) :
    (putItem store key record).2 = some (marshallRU (spreadMerge record key)) ∧
      (putItem store key record).1 (marshallRU key)
        = some (marshallRU (spreadMerge record key)) ∧
      (∀ a : String, getAttr (spreadMerge record key) a = (getAttr key a <|> getAttr record a)) ∧
      (∀ (a : String) (v : DVal),
        (a, v) ∈ marshallRU (spreadMerge record key) ↔ (a, some v) ∈ spreadMerge record key) ∧
      (putItem store key record).2 = getItem (putItem store key record).1 key := by
  refine ⟨?_, ?_, fun a => getAttr_spreadMerge record key a,
    fun a v => mem_marshallRU (spreadMerge record key) a v, rfl⟩
  · simp [putItem, getItem]
  · simp [putItem]
